import Mathlib

/-!
# Verification of the `eset` Go package (github.com/ichxxx/eset)

Shallow embedding of `src/eset.go`.  An `ExpirableSet` in Go holds a field
`elems : map[interface{}]*base`; a Go map value is a *reference* to a shared
mutable container, so the embedding uses an explicit heap of map containers and
represents the `elems` field as an index (`Nat`) into that heap.  `Clone`
copies the struct fields, hence copies the *reference* (`elems: es.elems`),
which the heap model reproduces exactly.

Modelling choices:
* elements (`interface{}` keys) are `Nat`; the code only uses key equality;
* `time.Time` instants are `Int` (nanosecond ticks); `time.Now()` becomes an
  explicit `now : Int` parameter, the injectable clock of the spec;
  `t.Before(u)` is `t < u`, `t.After(u)` is `t > u`;
* a `*base` value is `Marker := Option Int`: the `nil` pointer is `none`
  (no expiry), `&base{expireTime: t}` is `some t`;
* the map container is an association list with pairwise-distinct keys
  (`EMap`); Go map reads/writes/deletes become `mapGet`/`mapInsert`/`mapDelete`;
  a `for ... range` loop that deletes expired entries becomes a `filter`;
* `errors.New` values are the inductive `GoErr`: `GoErr.notExist` is the
  message `elem doesn t exist` (returned both by `Update` and by
  `GetElemTTL`), `GoErr.noTTL` is `elem doesn t have ttl`;
* the mutex fields only serialize access and have no sequential semantics,
  so they are dropped; each exported operation is one atomic step.
-/

namespace eset

/-- A Go `*base` pointer: `none` is the `nil` pointer (element never expires),
`some t` is `&base{expireTime: t}`. -/
abbrev Marker := Option Int

/-- The contents of one Go map container `map[interface{}]*base`. -/
abbrev EMap := List (Nat × Marker)

/-- Go map read `m[k]` (with the `, ok` form): the value bound to the first
occurrence of key `k`. -/
def mapGet : EMap → Nat → Option Marker
  | [], _ => none
  | p :: rest, k => if p.1 = k then some p.2 else mapGet rest k

/-- Go map write `m[k] = v`: overwrite the binding of `k` when present,
otherwise append a fresh binding. -/
def mapInsert : EMap → Nat → Marker → EMap
  | [], k, v => [(k, v)]
  | p :: rest, k, v => if p.1 = k then (k, v) :: rest else p :: mapInsert rest k v

/-- Go builtin `delete(m, k)`. -/
def mapDelete : EMap → Nat → EMap
  | [], _ => []
  | p :: rest, k => if p.1 = k then mapDelete rest k else p :: mapDelete rest k

/-- Well-formedness of a map container: keys are pairwise distinct, as in a
real Go map. -/
def WF (m : EMap) : Prop := (m.map Prod.fst).Nodup

instance : DecidablePred WF := fun m => by
  unfold WF
  infer_instance

/-- The heap of map containers.  A Go map value (the `elems` field) is a
reference, modelled as an index into `maps`. -/
structure Heap where
  maps : List EMap
deriving DecidableEq, Repr

/-- Dereference a map reference. -/
def Heap.read (h : Heap) (r : Nat) : EMap := h.maps.getD r []

/-- Mutate the container a reference points to. -/
def Heap.write (h : Heap) (r : Nat) (m : EMap) : Heap := ⟨h.maps.set r m⟩

/-- Go struct `ExpirableSet`: the `elems` field is a map *reference* into the
heap; `capacity` is the advisory hint.  The mutex is dropped (see header). -/
structure ExpirableSet where
  elems : Nat
  capacity : Int
deriving DecidableEq, Repr

/-- The Go error values produced with `errors.New`.  `notExist` is the
not-found message shared by `Update` and `GetElemTTL`; `noTTL` is the
no-ttl message of `GetElemTTL`. -/
inductive GoErr where
  | notExist
  | noTTL
deriving DecidableEq, Repr

/-- `func (b *base) isExpired() bool`: `b != nil && b.expireTime.Before(now)`.
The `nil` marker never expires. -/
def isExpired (b : Marker) (now : Int) : Bool :=
  match b with
  | none => false
  | some t => decide (t < now)

/-- `func (es *ExpirableSet) delExpiredElems()`: the range loop deletes every
expired entry; its net effect on the container is a filter. -/
def delExpiredElems (now : Int) (m : EMap) : EMap :=
  m.filter (fun p => !(isExpired p.2 now))

/-- `func (es *ExpirableSet) contains(elem) bool`: bare key-presence check. -/
def keyPresent (m : EMap) (k : Nat) : Bool := (mapGet m k).isSome

/-- The boolean computed by `Contains`: `isExist && !base.isExpired()`. -/
def containsB (m : EMap) (k : Nat) (now : Int) : Bool :=
  match mapGet m k with
  | none => false
  | some b => !(isExpired b now)

/-- `func New() *ExpirableSet`: allocate a fresh empty container (capacity 0). -/
def New (h : Heap) : Heap × ExpirableSet :=
  (⟨h.maps ++ [[]]⟩, ⟨h.maps.length, 0⟩)

/-- `func (es *ExpirableSet) Clone() *ExpirableSet`: a struct literal copying
the `elems` field.  Go maps are references, so the clone shares the original
container: the same heap index. -/
def Clone (es : ExpirableSet) : ExpirableSet :=
  ⟨es.elems, es.capacity⟩

/-- `func (es *ExpirableSet) Add(elem)`: insert with the `nil` marker. -/
def Add (h : Heap) (es : ExpirableSet) (k : Nat) : Heap :=
  h.write es.elems (mapInsert (h.read es.elems) k none)

/-- `func (es *ExpirableSet) AddWithExpire(elem, ttl)`: insert with marker
`time.Now().Add(ttl)` built by `buildBase`. -/
def AddWithExpire (h : Heap) (es : ExpirableSet) (k : Nat) (ttl now : Int) : Heap :=
  h.write es.elems (mapInsert (h.read es.elems) k (some (now + ttl)))

/-- `func (es *ExpirableSet) Remove(elem)`. -/
def Remove (h : Heap) (es : ExpirableSet) (k : Nat) : Heap :=
  h.write es.elems (mapDelete (h.read es.elems) k)

/-- `func (es *ExpirableSet) Update(old, new) error`: when `old` is bound,
first `es.elems[new] = oldElem`, then `delete(es.elems, old)`; otherwise
return the not-found error and change nothing. -/
def Update (h : Heap) (es : ExpirableSet) (old new : Nat) : Heap × Option GoErr :=
  match mapGet (h.read es.elems) old with
  | some b => (h.write es.elems (mapDelete (mapInsert (h.read es.elems) new b) old), none)
  | none => (h, some GoErr.notExist)

/-- `func (es *ExpirableSet) Contains(elem) bool`: reads under `RLock` only;
returns `isExist && !base.isExpired()` and leaves the heap untouched. -/
def Contains (h : Heap) (es : ExpirableSet) (k : Nat) (now : Int) : Heap × Bool :=
  (h, containsB (h.read es.elems) k now)

/-- `func (es *ExpirableSet) GetElemTTL(elem) (float64, error)`: `ttl` starts
at `-1`; absent keys and non-future markers yield the not-found error, the
`nil` marker yields the no-ttl error, a strictly future marker yields the
remaining duration. -/
def GetElemTTL (h : Heap) (es : ExpirableSet) (k : Nat) (now : Int) :
    Heap × Int × Option GoErr :=
  match mapGet (h.read es.elems) k with
  | none => (h, -1, some GoErr.notExist)
  | some none => (h, -1, some GoErr.noTTL)
  | some (some t) => if now < t then (h, t - now, none) else (h, -1, some GoErr.notExist)

/-- `func (es *ExpirableSet) GetAll() []interface{}`: one pass that deletes
every expired entry and collects the survivors in a slice. -/
def GetAll (h : Heap) (es : ExpirableSet) (now : Int) : Heap × List Nat :=
  (h.write es.elems (delExpiredElems now (h.read es.elems)),
   ((h.read es.elems).filter (fun p => !(isExpired p.2 now))).map Prod.fst)

/-- `func (es *ExpirableSet) Size() int`: sweep expired entries, then return
`len(es.elems)`. -/
def Size (h : Heap) (es : ExpirableSet) (now : Int) : Heap × Nat :=
  (h.write es.elems (delExpiredElems now (h.read es.elems)),
   (delExpiredElems now (h.read es.elems)).length)

/-- `func (es *ExpirableSet) ForEach(handler)`: sweeps expired entries and
hands each survivor to the handler; the handler applications are modelled as
the list of elements passed to it. -/
def ForEach (h : Heap) (es : ExpirableSet) (now : Int) : Heap × List Nat :=
  (h.write es.elems (delExpiredElems now (h.read es.elems)),
   ((h.read es.elems).filter (fun p => !(isExpired p.2 now))).map Prod.fst)

/-- `func (es *ExpirableSet) largerThan(other) bool`: `len > len`. -/
def largerThan (h : Heap) (a b : ExpirableSet) : Bool :=
  decide ((h.read b.elems).length < (h.read a.elems).length)

/-- `func compareAndGet(one, other)`: the bigger operand cloned (sharing its
container) paired with the smaller operand. -/
def compareAndGet (h : Heap) (one other : ExpirableSet) :
    ExpirableSet × ExpirableSet :=
  if largerThan h one other then (Clone one, other) else (Clone other, one)

/-- The range loop of `Union`: for each entry of the small operand missing
from the accumulating container, copy it over.  Every iteration reads and
writes only the container of the big operand, so the loop is its pure fold. -/
def unionFold (la sm : EMap) : EMap :=
  sm.foldl (fun acc kv => if keyPresent acc kv.1 then acc else mapInsert acc kv.1 kv.2) la

/-- `func (es *ExpirableSet) Union(other) *ExpirableSet`: run the loop on the
container of the first component of `compareAndGet` (the clone, which shares
the container of the larger operand) and return the clone. -/
def Union (h : Heap) (a b : ExpirableSet) : Heap × ExpirableSet :=
  let p := compareAndGet h a b
  (h.write p.1.elems (unionFold (h.read p.1.elems) (h.read p.2.elems)), p.1)

/-- The range loop of `Different`: keys of the small operand present in the
accumulating container are deleted, missing ones are copied over. -/
def differentFold (la sm : EMap) : EMap :=
  sm.foldl
    (fun acc kv => if keyPresent acc kv.1 then mapDelete acc kv.1 else mapInsert acc kv.1 kv.2)
    la

/-- `func (es *ExpirableSet) Different(other) *ExpirableSet`: like `Union`,
the loop mutates the container of the clone (= of the larger operand). -/
def Different (h : Heap) (a b : ExpirableSet) : Heap × ExpirableSet :=
  let p := compareAndGet h a b
  (h.write p.1.elems (differentFold (h.read p.1.elems) (h.read p.2.elems)), p.1)

/-- The range loop of `Intersect`: membership is checked in the container of
the big operand (never written during the loop) and hits are inserted into
the container of the new set, starting empty. -/
def intersectFold (la sm : EMap) : EMap :=
  sm.foldl (fun acc kv => if keyPresent la kv.1 then mapInsert acc kv.1 kv.2 else acc) []

/-- `func (es *ExpirableSet) Intersect(other) *ExpirableSet`: `newEs := New()`
allocates a fresh container; the larger/smaller split keeps the operands
themselves (no clone); the loop fills the fresh container. -/
def Intersect (h : Heap) (a b : ExpirableSet) : Heap × ExpirableSet :=
  let h1 : Heap := ⟨h.maps ++ [[]]⟩
  let r : ExpirableSet := ⟨h.maps.length, 0⟩
  let lager := if largerThan h a b then a else b
  let small := if largerThan h a b then b else a
  (h1.write r.elems (intersectFold (h1.read lager.elems) (h1.read small.elems)), r)

/-! ### Concrete states used to exercise the theorems below -/

/-- A heap with two sets: one entry with marker, two entries. -/
def hC6 : Heap := ⟨[[(1, some 5)], [(1, some 9), (2, none)]]⟩

/-- A heap with two sets of equal size with one common key. -/
def hC7 : Heap := ⟨[[(1, none), (2, some 8)], [(2, some 3), (4, none)]]⟩

/-- A heap with one set holding an expired, a permanent and a live entry
relative to instant 10. -/
def hC8 : Heap := ⟨[[(1, some 5), (2, none), (3, some 20)]]⟩

/-- A heap with one set holding a permanent entry and an entry expired at
instant 10. -/
def hC10 : Heap := ⟨[[(1, none), (2, some 3)]]⟩

/-! ## Basic lemmas about the map and heap primitives -/

theorem mapGet_mapInsert_self (m : EMap) (k : Nat) (v : Marker) :
    mapGet (mapInsert m k v) k = some v := by
  induction m with
  | nil => simp [mapInsert, mapGet]
  | cons p rest ih =>
    by_cases hp : p.1 = k
    · simp [mapInsert, hp, mapGet]
    · simp [mapInsert, hp, mapGet, ih]

theorem mapGet_mapInsert_ne (m : EMap) (k k' : Nat) (v : Marker) (hne : k' ≠ k) :
    mapGet (mapInsert m k v) k' = mapGet m k' := by
  induction m with
  | nil =>
    simp [mapInsert, mapGet]
    intro h
    exact absurd h.symm hne
  | cons p rest ih =>
    by_cases hp : p.1 = k
    · subst hp
      have hp' : ¬ (p.1 = k') := fun h => hne (h.symm)
      simp [mapInsert, mapGet, hp']
    · simp [mapInsert, hp, mapGet, ih]

theorem mapGet_mapDelete_self (m : EMap) (k : Nat) :
    mapGet (mapDelete m k) k = none := by
  induction m with
  | nil => simp [mapDelete, mapGet]
  | cons p rest ih =>
    by_cases hp : p.1 = k
    · simp [mapDelete, hp, ih]
    · simp [mapDelete, hp, mapGet, ih]

theorem mapGet_mapDelete_ne (m : EMap) (k k' : Nat) (hne : k' ≠ k) :
    mapGet (mapDelete m k) k' = mapGet m k' := by
  induction m with
  | nil => simp [mapDelete]
  | cons p rest ih =>
    by_cases hp : p.1 = k
    · have hp' : ¬ (p.1 = k') := by
        rw [hp]
        exact fun h => hne h.symm
      simp [mapDelete, hp, mapGet, hp', ih, Ne.symm hne]
    · simp [mapDelete, hp, mapGet, ih]

theorem mapGet_eq_none_of_not_mem (m : EMap) (k : Nat)
    (h : k ∉ m.map Prod.fst) : mapGet m k = none := by
  induction m with
  | nil => simp [mapGet]
  | cons p rest ih =>
    simp only [List.map_cons, List.mem_cons] at h
    push_neg at h
    have hp : ¬ (p.1 = k) := fun hh => h.1 hh.symm
    simp [mapGet, hp, ih h.2]

theorem mapGet_filter (m : EMap) (k : Nat) (b : Marker) (p : Nat × Marker → Bool)
    (hg : mapGet m k = some b) (hp : p (k, b) = true) :
    mapGet (m.filter p) k = some b := by
  induction m with
  | nil => simp [mapGet] at hg
  | cons q rest ih =>
    by_cases hq : q.1 = k
    · have hqb : q.2 = b := by
        simpa [mapGet, hq] using hg
      have hqkb : q = (k, b) := by
        cases q
        simp_all
      subst hqkb
      simp [List.filter, hp, mapGet]
    · have hg' : mapGet rest k = some b := by
        simpa [mapGet, hq] using hg
      cases hpq : p q <;> simp [List.filter, hpq, mapGet, hq, ih hg']

theorem mapGet_delExpiredElems (m : EMap) (k : Nat) (b : Marker) (now : Int)
    (hg : mapGet m k = some b) (hb : isExpired b now = false) :
    mapGet (delExpiredElems now m) k = some b := by
  apply mapGet_filter m k b _ hg
  simp [hb]

theorem list_getD_set_self :
    ∀ (l : List EMap) (r : Nat) (m : EMap), r < l.length →
      (l.set r m).getD r [] = m := by
  intro l
  induction l with
  | nil => intro r m hr; simp at hr
  | cons x xs ih =>
    intro r m hr
    cases r with
    | zero => simp [List.set, List.getD]
    | succ n =>
      simp only [List.length_cons, Nat.succ_lt_succ_iff] at hr
      simpa [List.set, List.getD] using ih n m hr

theorem list_getD_set_ne :
    ∀ (l : List EMap) (r r' : Nat) (m : EMap), r' ≠ r →
      (l.set r m).getD r' [] = l.getD r' [] := by
  intro l
  induction l with
  | nil => intro r r' m _; simp
  | cons x xs ih =>
    intro r r' m hne
    cases r with
    | zero =>
      cases r' with
      | zero => exact absurd rfl hne
      | succ n' => simp [List.set, List.getD]
    | succ n =>
      cases r' with
      | zero => simp [List.set, List.getD]
      | succ n' =>
        have : n' ≠ n := fun h => hne (by rw [h])
        simpa [List.set, List.getD] using ih n n' m this

theorem list_getD_append (l : List EMap) (x : EMap) (r : Nat) (hr : r < l.length) :
    (l ++ [x]).getD r [] = l.getD r [] := by
  induction l generalizing r with
  | nil => simp at hr
  | cons y ys ih =>
    cases r with
    | zero => simp [List.getD]
    | succ n =>
      simp only [List.length_cons, Nat.succ_lt_succ_iff] at hr
      simpa [List.getD] using ih n hr

theorem Heap.read_write_self (h : Heap) (r : Nat) (m : EMap)
    (hr : r < h.maps.length) : (h.write r m).read r = m :=
  list_getD_set_self h.maps r m hr

theorem Heap.read_write_ne (h : Heap) (r r' : Nat) (m : EMap)
    (hne : r' ≠ r) : (h.write r m).read r' = h.read r' :=
  list_getD_set_ne h.maps r r' m hne

theorem filter_congr_aux (l : List Nat) (f g : Nat → Bool)
    (h : ∀ x ∈ l, f x = g x) : l.filter f = l.filter g := by
  induction l with
  | nil => rfl
  | cons x xs ih =>
    have hx := h x (by simp)
    have hxs : ∀ y ∈ xs, f y = g y := fun y hy => h y (by simp [hy])
    cases hfx : f x <;> rw [List.filter, List.filter] <;>
      simp [hfx, ← hx, ih hxs]

theorem WF_cons (p : Nat × Marker) (rest : EMap) (h : WF (p :: rest)) :
    p.1 ∉ rest.map Prod.fst ∧ WF rest := by
  unfold WF at h
  rw [List.map_cons] at h
  exact List.nodup_cons.mp h

theorem differentFold_get (sm : EMap) : ∀ (la : EMap), WF sm → ∀ k,
    mapGet (differentFold la sm) k =
      if (mapGet sm k).isSome then
        (if (mapGet la k).isSome then none else mapGet sm k)
      else mapGet la k := by
  induction sm with
  | nil =>
    intro la _ k
    simp [differentFold, mapGet]
  | cons kv rest ih =>
    intro la hwf k
    have hw := WF_cons _ _ hwf
    have hwf' : WF rest := hw.2
    have hnm : kv.1 ∉ rest.map Prod.fst := hw.1
    have hstep : differentFold la (kv :: rest) =
        differentFold
          (if keyPresent la kv.1 then mapDelete la kv.1 else mapInsert la kv.1 kv.2)
          rest := rfl
    rw [hstep, ih _ hwf' k]
    by_cases hk : kv.1 = k
    · subst hk
      have hrest : mapGet rest kv.1 = none := mapGet_eq_none_of_not_mem _ _ hnm
      cases hla : keyPresent la kv.1 <;>
        simp [hla, hrest, mapGet, mapGet_mapInsert_self, mapGet_mapDelete_self,
          keyPresent] at * <;>
        simp [hla]
    · have hne : k ≠ kv.1 := fun h => hk h.symm
      cases hla : keyPresent la kv.1 <;>
        simp [hla, mapGet, hk, mapGet_mapDelete_ne _ _ _ hne,
          mapGet_mapInsert_ne _ _ _ _ hne]

theorem intersectFold_get_aux (sm : EMap) : ∀ (acc la : EMap), WF sm → ∀ k,
    mapGet
      (sm.foldl
        (fun acc kv => if keyPresent la kv.1 then mapInsert acc kv.1 kv.2 else acc)
        acc) k
    = if ((mapGet sm k).isSome && (mapGet la k).isSome) then mapGet sm k
      else mapGet acc k := by
  induction sm with
  | nil =>
    intro acc la _ k
    simp [mapGet]
  | cons kv rest ih =>
    intro acc la hwf k
    have hw := WF_cons _ _ hwf
    have hwf' : WF rest := hw.2
    have hnm : kv.1 ∉ rest.map Prod.fst := hw.1
    rw [List.foldl_cons, ih _ la hwf' k]
    by_cases hk : kv.1 = k
    · subst hk
      have hrest : mapGet rest kv.1 = none := mapGet_eq_none_of_not_mem _ _ hnm
      cases hla : keyPresent la kv.1 <;>
        simp [hla, hrest, mapGet, mapGet_mapInsert_self, keyPresent] at * <;>
        simp [hla]
    · have hne : k ≠ kv.1 := fun h => hk h.symm
      cases hla : keyPresent la kv.1 <;>
        simp [hla, mapGet, hk, mapGet_mapInsert_ne _ _ _ _ hne]

theorem intersectFold_get (la sm : EMap) (hwf : WF sm) (k : Nat) :
    mapGet (intersectFold la sm) k =
      if ((mapGet sm k).isSome && (mapGet la k).isSome) then mapGet sm k
      else none := by
  have h := intersectFold_get_aux sm [] la hwf k
  simpa [intersectFold, mapGet] using h

theorem containsB_count (m : EMap) (now : Int) (hwf : WF m) :
    ((m.map Prod.fst).filter (fun k => containsB m k now)).length
      = (m.filter (fun p => !(isExpired p.2 now))).length := by
  induction m with
  | nil => rfl
  | cons p rest ih =>
    have hw := WF_cons _ _ hwf
    have hwf' : WF rest := hw.2
    have hnm : p.1 ∉ rest.map Prod.fst := hw.1
    have hhead : containsB (p :: rest) p.1 now = !(isExpired p.2 now) := by
      simp [containsB, mapGet]
    have htail : ∀ k ∈ rest.map Prod.fst,
        containsB (p :: rest) k now = containsB rest k now := by
      intro k hkmem
      have hne : ¬ (p.1 = k) := fun h => hnm (h ▸ hkmem)
      simp [containsB, mapGet, hne]
    rw [List.map_cons, List.filter_cons, List.filter_cons,
      filter_congr_aux _ _ _ htail, hhead]
    cases hexp : isExpired p.2 now <;> simp [ih hwf']

/-! ## Claims -/

/-- Claim C1: the claim says `Union`, `Intersect` and `Different` leave both
entry mappings of both operands unchanged and return a fresh instance.  The code
violates this: `compareAndGet` clones the larger operand, but `Clone` copies
the map *reference*, so `Union` writes the missing entries of the smaller
operand straight into the container owned by the larger operand and returns
a set aliasing it.  Here `A = {1, 2}` and `B = {3}`: after `A.Union(B)` the
container of `A` has become `{1, 2, 3}` and the returned set shares it. -/
theorem Union_mutates_larger_operand :
    Heap.read (⟨[[(1, none), (2, none)], [(3, none)]]⟩ : Heap) 0 = [(1, none), (2, none)]
    ∧ Heap.read (Union ⟨[[(1, none), (2, none)], [(3, none)]]⟩ ⟨0, 0⟩ ⟨1, 0⟩).1 0
        = [(1, none), (2, none), (3, none)]
    ∧ (Union ⟨[[(1, none), (2, none)], [(3, none)]]⟩ ⟨0, 0⟩ ⟨1, 0⟩).2.elems = 0 := by
  decide

/-- Claim C2: the claim says mutating the result of `Clone` never changes the
original.  The code violates this: `Clone` copies the `elems` map reference,
so the clone and the original share one container.  Here the original holds
`{1}`; adding `2` through the clone makes `2` a key of the original. -/
theorem Clone_shares_entry_mapping :
    mapGet (Heap.read (⟨[[(1, none)]]⟩ : Heap) 0) 2 = none
    ∧ mapGet (Heap.read (Add ⟨[[(1, none)]]⟩ (Clone ⟨0, 0⟩) 2) 0) 2 = some none := by
  decide

/-- Claim C3 counterexample: the claim says a `Contains` call on a present but
expired element deletes the stale entry.  The code only reads under `RLock`
and never deletes: with entry `7 ↦ marker 5` and clock 10, `Contains` returns
`false` but `7` is still a key afterwards. -/
theorem Contains_leaves_expired_entry :
    (Contains ⟨[[(7, some 5)]]⟩ ⟨0, 0⟩ 7 10).2 = false
    ∧ mapGet (Heap.read (Contains ⟨[[(7, some 5)]]⟩ ⟨0, 0⟩ 7 10).1 0) 7 = some (some 5) := by
  decide

/-- Claim C3 (amended): `Contains(e)` returns true iff `e` is a key whose
marker (if any) is not in the past; a present-but-expired entry yields
`false` but is left in place — `Contains` never mutates the set. -/
theorem Contains_spec (h : Heap) (es : ExpirableSet) (k : Nat) (now : Int) :
    ((Contains h es k now).2 = true ↔
      ∃ b, mapGet (h.read es.elems) k = some b ∧ isExpired b now = false)
    ∧ (Contains h es k now).1 = h := by
  constructor
  · cases hg : mapGet (h.read es.elems) k with
    | none => simp [Contains, containsB, hg]
    | some b => simp [Contains, containsB, hg]
  · rfl

/-- Claim C4 counterexample: the claim says that whenever `oldElem` is a key,
`Update` maps `newElem` to the marker of `oldElem` and removes `oldElem`.  At
`oldElem = newElem = 5` the code first rebinds `5` and then deletes it, so the
call succeeds yet `5` (the new element) ends up absent instead of bound. -/
theorem Update_self_rename_unmapped :
    (Update ⟨[[(5, none)]]⟩ ⟨0, 0⟩ 5 5).2 = none
    ∧ mapGet (Heap.read (Update ⟨[[(5, none)]]⟩ ⟨0, 0⟩ 5 5).1 0) 5 = none := by
  decide

/-- Claim C4 (amended): if `oldElem` is absent, `Update` returns the NotFound
error and changes nothing; if `oldElem` is present (expired or not), the call
succeeds, `oldElem` is removed, and — provided `newElem ≠ oldElem` — `newElem`
is bound to the marker of `oldElem` (including the nil marker), silently
overwriting any prior binding of `newElem`; when `newElem = oldElem` the
entry is removed entirely. -/
theorem Update_spec (h : Heap) (es : ExpirableSet) (old new : Nat)
    (hr : es.elems < h.maps.length) :
    (mapGet (h.read es.elems) old = none →
      Update h es old new = (h, some GoErr.notExist))
    ∧ (∀ b, mapGet (h.read es.elems) old = some b →
        (Update h es old new).2 = none
        ∧ mapGet (Heap.read (Update h es old new).1 es.elems) old = none
        ∧ (old ≠ new →
            mapGet (Heap.read (Update h es old new).1 es.elems) new = some b)) := by
  constructor
  · intro hg
    simp [Update, hg]
  · intro b hg
    have hpost : Heap.read (Update h es old new).1 es.elems
        = mapDelete (mapInsert (h.read es.elems) new b) old := by
      simp [Update, hg, Heap.read_write_self _ _ _ hr]
    refine ⟨by simp [Update, hg], ?_, ?_⟩
    · rw [hpost]
      exact mapGet_mapDelete_self _ _
    · intro hne
      rw [hpost, mapGet_mapDelete_ne _ _ _ (Ne.symm hne), mapGet_mapInsert_self]

/-- Claim C4 witness: renaming the present element `1` (marker 3) to `5`
succeeds, removes `1` and binds `5` to marker 3. -/
theorem Update_spec_witness :
    (Update ⟨[[(1, some 3), (2, none)]]⟩ ⟨0, 0⟩ 1 5).2 = none
    ∧ mapGet (Heap.read (Update ⟨[[(1, some 3), (2, none)]]⟩ ⟨0, 0⟩ 1 5).1 0) 1 = none
    ∧ mapGet (Heap.read (Update ⟨[[(1, some 3), (2, none)]]⟩ ⟨0, 0⟩ 1 5).1 0) 5
        = some (some 3) := by
  have h := Update_spec ⟨[[(1, some 3), (2, none)]]⟩ ⟨0, 0⟩ 1 5 (by decide)
  have h2 := h.2 (some 3) (by decide)
  exact ⟨h2.1, h2.2.1, h2.2.2 (by decide)⟩

/-- Claim C9: `Update(e, e)` on a present element `e` first rebinds `e` to its
own marker and then deletes `e`, so it removes the element entirely, returns
no error, and `Contains(e)` is false afterwards at every instant. -/
theorem Update_self_removes (h : Heap) (es : ExpirableSet) (e : Nat) (b : Marker)
    (hg : mapGet (h.read es.elems) e = some b) (hr : es.elems < h.maps.length) :
    (Update h es e e).2 = none
    ∧ mapGet (Heap.read (Update h es e e).1 es.elems) e = none
    ∧ ∀ now, (Contains (Update h es e e).1 es e now).2 = false := by
  have hpost : Heap.read (Update h es e e).1 es.elems
      = mapDelete (mapInsert (h.read es.elems) e b) e := by
    simp [Update, hg, Heap.read_write_self _ _ _ hr]
  refine ⟨by simp [Update, hg], ?_, ?_⟩
  · rw [hpost]
    exact mapGet_mapDelete_self _ _
  · intro now
    simp [Contains, containsB, hpost, mapGet_mapDelete_self]

/-- Claim C9 witness: removing `9` (marker 4) from a one-element set by
self-rename. -/
theorem Update_self_removes_witness :
    (Update ⟨[[(9, some 4)]]⟩ ⟨0, 0⟩ 9 9).2 = none
    ∧ mapGet (Heap.read (Update ⟨[[(9, some 4)]]⟩ ⟨0, 0⟩ 9 9).1 0) 9 = none
    ∧ (Contains (Update ⟨[[(9, some 4)]]⟩ ⟨0, 0⟩ 9 9).1 ⟨0, 0⟩ 9 0).2 = false := by
  have h := Update_self_removes ⟨[[(9, some 4)]]⟩ ⟨0, 0⟩ 9 (some 4) (by decide) (by decide)
  exact ⟨h.1, h.2.1, h.2.2 0⟩

/-- Claim C5 counterexample: the claim partitions the error cases by "Marker
in the past".  With entry `1 ↦ marker 10` read at instant 10 the marker is not
in the past, so the claim requires a positive remaining duration; the code
tests `expireTime.After(now)` (strictly in the future) and instead reports the
ElementNotFound error. -/
theorem GetElemTTL_now_boundary :
    mapGet (Heap.read (⟨[[(1, some 10)]]⟩ : Heap) 0) 1 = some (some 10)
    ∧ ¬ ((10 : Int) < 10)
    ∧ (GetElemTTL ⟨[[(1, some 10)]]⟩ ⟨0, 0⟩ 1 10).2 = (-1, some GoErr.notExist) := by
  decide

/-- Claim C5 (amended): `GetElemTTL(e)` never mutates the mapping; it fails
with ElementNotFound when `e` is absent or when the marker of `e` is not strictly
in the future (`expireTime ≤ now`, the two cases yielding the same error),
fails with NoExpiry when `e` has the nil marker, and otherwise
(`now < expireTime`) returns the positive remaining duration. -/
theorem GetElemTTL_spec (h : Heap) (es : ExpirableSet) (k : Nat) (now : Int) :
    (GetElemTTL h es k now).1 = h
    ∧ (mapGet (h.read es.elems) k = none →
        (GetElemTTL h es k now).2 = (-1, some GoErr.notExist))
    ∧ (mapGet (h.read es.elems) k = some none →
        (GetElemTTL h es k now).2 = (-1, some GoErr.noTTL))
    ∧ (∀ t, mapGet (h.read es.elems) k = some (some t) → t ≤ now →
        (GetElemTTL h es k now).2 = (-1, some GoErr.notExist))
    ∧ (∀ t, mapGet (h.read es.elems) k = some (some t) → now < t →
        (GetElemTTL h es k now).2 = (t - now, none) ∧ 0 < t - now) := by
  refine ⟨?_, ?_, ?_, ?_, ?_⟩
  · unfold GetElemTTL
    cases hg : mapGet (h.read es.elems) k with
    | none => rfl
    | some b =>
      cases b with
      | none => rfl
      | some t =>
        by_cases hlt : now < t <;> simp [hlt]
  · intro hg
    simp [GetElemTTL, hg]
  · intro hg
    simp [GetElemTTL, hg]
  · intro t hg hle
    have hnlt : ¬ (now < t) := by omega
    simp [GetElemTTL, hg, hnlt]
  · intro t hg hlt
    refine ⟨by simp [GetElemTTL, hg, hlt], by omega⟩

/-- Claim C5 witness: entry `4 ↦ marker 9` read at instant 6 leaves the heap
unchanged and yields the positive remaining duration 3. -/
theorem GetElemTTL_spec_witness :
    (GetElemTTL ⟨[[(4, some 9)]]⟩ ⟨0, 0⟩ 4 6).1 = ⟨[[(4, some 9)]]⟩
    ∧ (GetElemTTL ⟨[[(4, some 9)]]⟩ ⟨0, 0⟩ 4 6).2 = (9 - 6, none)
    ∧ 0 < (9 : Int) - 6 := by
  have h := GetElemTTL_spec ⟨[[(4, some 9)]]⟩ ⟨0, 0⟩ 4 6
  have h5 := h.2.2.2.2 9 (by decide) (by decide)
  exact ⟨h.1, h5.1, h5.2⟩

/-- Claim C8: `Size()` first sweeps every expired entry out of the container
and then returns the count of the survivors, which equals the number of keys
of the pre-call mapping for which `Contains` is true at the same clock
reading. -/
theorem Size_spec (h : Heap) (es : ExpirableSet) (now : Int)
    (hr : es.elems < h.maps.length) (hwf : WF (h.read es.elems)) :
    Heap.read (Size h es now).1 es.elems = delExpiredElems now (h.read es.elems)
    ∧ (Size h es now).2
        = (((h.read es.elems).map Prod.fst).filter
            (fun k => (Contains h es k now).2)).length := by
  constructor
  · exact Heap.read_write_self _ _ _ hr
  · have hc := containsB_count (h.read es.elems) now hwf
    simpa [Size, delExpiredElems] using hc.symm

/-- Claim C8 witness: at instant 10 the set `{1 ↦ 5, 2 ↦ nil, 3 ↦ 20}` sweeps
the expired entry `1` and reports size 2. -/
theorem Size_spec_witness :
    Heap.read (Size hC8 ⟨0, 0⟩ 10).1 0 = [(2, none), (3, some 20)]
    ∧ (Size hC8 ⟨0, 0⟩ 10).2 = 2 := by
  have h := Size_spec hC8 ⟨0, 0⟩ 10 (by decide) (by decide)
  constructor
  · rw [show (0 : Nat) = (⟨0, 0⟩ : ExpirableSet).elems from rfl, h.1]
    decide
  · rw [h.2]
    decide

/-- Claim C10: every sweep (the `delExpiredElems` helper and the sweeps inside
`GetAll`, `Size` and `ForEach`) removes only expired entries: an entry whose
marker is nil or not in the past survives each call with its key and marker
unchanged. -/
theorem sweep_preserves_unexpired (h : Heap) (es : ExpirableSet) (now : Int)
    (k : Nat) (b : Marker) (hr : es.elems < h.maps.length)
    (hg : mapGet (h.read es.elems) k = some b) (hb : isExpired b now = false) :
    mapGet (delExpiredElems now (h.read es.elems)) k = some b
    ∧ mapGet (Heap.read (GetAll h es now).1 es.elems) k = some b
    ∧ mapGet (Heap.read (Size h es now).1 es.elems) k = some b
    ∧ mapGet (Heap.read (ForEach h es now).1 es.elems) k = some b := by
  have hdel := mapGet_delExpiredElems _ _ _ _ hg hb
  have hga : Heap.read (GetAll h es now).1 es.elems
      = delExpiredElems now (h.read es.elems) := Heap.read_write_self _ _ _ hr
  have hsz : Heap.read (Size h es now).1 es.elems
      = delExpiredElems now (h.read es.elems) := Heap.read_write_self _ _ _ hr
  have hfe : Heap.read (ForEach h es now).1 es.elems
      = delExpiredElems now (h.read es.elems) := Heap.read_write_self _ _ _ hr
  exact ⟨hdel, by rw [hga]; exact hdel, by rw [hsz]; exact hdel, by rw [hfe]; exact hdel⟩

/-- Claim C10 witness: the nil-marker entry `1` survives the sweeps of
`GetAll`, `Size` and `ForEach` at instant 10 (while entry `2 ↦ 3` expires). -/
theorem sweep_preserves_unexpired_witness :
    mapGet (delExpiredElems 10 (Heap.read hC10 0)) 1 = some none
    ∧ mapGet (Heap.read (GetAll hC10 ⟨0, 0⟩ 10).1 0) 1 = some none
    ∧ mapGet (Heap.read (Size hC10 ⟨0, 0⟩ 10).1 0) 1 = some none
    ∧ mapGet (Heap.read (ForEach hC10 ⟨0, 0⟩ 10).1 0) 1 = some none := by
  exact sweep_preserves_unexpired hC10 ⟨0, 0⟩ 10 1 none (by decide) (by decide) (by decide)

/-- Claim C7: the key set of `A.Different(B)` is exactly the symmetric
difference of the key sets of `A` and `B`, regardless of expiry state: a key is
in the result iff it is a key of exactly one operand (markers are never
consulted). -/
theorem Different_symm_diff (h : Heap) (a b : ExpirableSet)
    (ha : a.elems < h.maps.length) (hb : b.elems < h.maps.length)
    (hwa : WF (h.read a.elems)) (hwb : WF (h.read b.elems)) (k : Nat) :
    (mapGet (Heap.read (Different h a b).1 (Different h a b).2.elems) k).isSome
      = Bool.xor (mapGet (h.read a.elems) k).isSome
          (mapGet (h.read b.elems) k).isSome := by
  cases hL : largerThan h a b with
  | true =>
    have hD : Different h a b
        = (h.write a.elems (differentFold (h.read a.elems) (h.read b.elems)),
           Clone a) := by
      simp [Different, compareAndGet, hL, Clone]
    rw [hD]
    have hca : (Clone a).elems = a.elems := rfl
    rw [hca, Heap.read_write_self _ _ _ ha, differentFold_get _ _ hwb k]
    cases hma : mapGet (h.read a.elems) k <;> cases hmb : mapGet (h.read b.elems) k <;>
      simp [hma, hmb, Bool.xor]
  | false =>
    have hD : Different h a b
        = (h.write b.elems (differentFold (h.read b.elems) (h.read a.elems)),
           Clone b) := by
      simp [Different, compareAndGet, hL, Clone]
    rw [hD]
    have hcb : (Clone b).elems = b.elems := rfl
    rw [hcb, Heap.read_write_self _ _ _ hb, differentFold_get _ _ hwa k]
    cases hma : mapGet (h.read a.elems) k <;> cases hmb : mapGet (h.read b.elems) k <;>
      simp [hma, hmb, Bool.xor]

/-- Claim C7 witness: for `A = {1, 2}` and `B = {2, 4}` the result of
`Different` excludes the common key 2 and keeps the exclusive key 1. -/
theorem Different_symm_diff_witness :
    (mapGet (Heap.read (Different hC7 ⟨0, 0⟩ ⟨1, 0⟩).1
        (Different hC7 ⟨0, 0⟩ ⟨1, 0⟩).2.elems) 2).isSome = false
    ∧ (mapGet (Heap.read (Different hC7 ⟨0, 0⟩ ⟨1, 0⟩).1
        (Different hC7 ⟨0, 0⟩ ⟨1, 0⟩).2.elems) 1).isSome = true := by
  have h2 := Different_symm_diff hC7 ⟨0, 0⟩ ⟨1, 0⟩ (by decide) (by decide)
    (by decide) (by decide) 2
  have h1 := Different_symm_diff hC7 ⟨0, 0⟩ ⟨1, 0⟩ (by decide) (by decide)
    (by decide) (by decide) 1
  constructor
  · rw [h2]
    decide
  · rw [h1]
    decide

/-- Claim C6: `Intersect` returns a freshly allocated set (its container is a
new reference distinct from both operands, and the container of neither
operand changes); its key set is exactly the intersection of the key sets of
the operands regardless of expiry state; and when one operand has strictly
fewer entries, every key of the result carries the marker it has in that
smaller operand. -/
theorem Intersect_spec (h : Heap) (a b : ExpirableSet)
    (ha : a.elems < h.maps.length) (hb : b.elems < h.maps.length)
    (hwa : WF (h.read a.elems)) (hwb : WF (h.read b.elems)) :
    (Intersect h a b).2.elems ≠ a.elems
    ∧ (Intersect h a b).2.elems ≠ b.elems
    ∧ Heap.read (Intersect h a b).1 a.elems = h.read a.elems
    ∧ Heap.read (Intersect h a b).1 b.elems = h.read b.elems
    ∧ (∀ k, (mapGet (Heap.read (Intersect h a b).1 (Intersect h a b).2.elems) k).isSome
          = ((mapGet (h.read a.elems) k).isSome && (mapGet (h.read b.elems) k).isSome))
    ∧ ((h.read a.elems).length < (h.read b.elems).length →
        ∀ k v,
          mapGet (Heap.read (Intersect h a b).1 (Intersect h a b).2.elems) k = some v →
          mapGet (h.read a.elems) k = some v)
    ∧ ((h.read b.elems).length < (h.read a.elems).length →
        ∀ k v,
          mapGet (Heap.read (Intersect h a b).1 (Intersect h a b).2.elems) k = some v →
          mapGet (h.read b.elems) k = some v) := by
  have hra : Heap.read ⟨h.maps ++ [[]]⟩ a.elems = h.read a.elems :=
    list_getD_append h.maps [] a.elems ha
  have hrb : Heap.read ⟨h.maps ++ [[]]⟩ b.elems = h.read b.elems :=
    list_getD_append h.maps [] b.elems hb
  cases hL : largerThan h a b with
  | false =>
    have hI : Intersect h a b
        = (Heap.write ⟨h.maps ++ [[]]⟩ h.maps.length
            (intersectFold (Heap.read ⟨h.maps ++ [[]]⟩ b.elems)
              (Heap.read ⟨h.maps ++ [[]]⟩ a.elems)),
           (⟨h.maps.length, 0⟩ : ExpirableSet)) := by
      simp [Intersect, hL]
    have hga : Heap.read (Intersect h a b).1 a.elems = h.read a.elems := by
      rw [hI, Heap.read_write_ne _ _ _ _ (Nat.ne_of_lt ha)]
      exact hra
    have hgb : Heap.read (Intersect h a b).1 b.elems = h.read b.elems := by
      rw [hI, Heap.read_write_ne _ _ _ _ (Nat.ne_of_lt hb)]
      exact hrb
    have hgr : Heap.read (Intersect h a b).1 (Intersect h a b).2.elems
        = intersectFold (h.read b.elems) (h.read a.elems) := by
      rw [hI, Heap.read_write_self _ _ _ (by simp), hra, hrb]
    refine ⟨by rw [hI]; exact (Nat.ne_of_lt ha).symm,
            by rw [hI]; exact (Nat.ne_of_lt hb).symm, hga, hgb, ?_, ?_, ?_⟩
    · intro k
      rw [hgr, intersectFold_get _ _ hwa k]
      cases hma : mapGet (h.read a.elems) k <;>
        cases hmb : mapGet (h.read b.elems) k <;> simp [hma, hmb]
    · intro _ k v hget
      rw [hgr, intersectFold_get _ _ hwa k] at hget
      by_cases hc : ((mapGet (h.read a.elems) k).isSome
          && (mapGet (h.read b.elems) k).isSome) = true
      · rw [if_pos hc] at hget
        exact hget
      · rw [if_neg hc] at hget
        exact absurd hget (by simp)
    · intro hlen
      have hnot : ¬ ((h.read b.elems).length < (h.read a.elems).length) := by
        simpa [largerThan] using hL
      exact absurd hlen hnot
  | true =>
    have hI : Intersect h a b
        = (Heap.write ⟨h.maps ++ [[]]⟩ h.maps.length
            (intersectFold (Heap.read ⟨h.maps ++ [[]]⟩ a.elems)
              (Heap.read ⟨h.maps ++ [[]]⟩ b.elems)),
           (⟨h.maps.length, 0⟩ : ExpirableSet)) := by
      simp [Intersect, hL]
    have hga : Heap.read (Intersect h a b).1 a.elems = h.read a.elems := by
      rw [hI, Heap.read_write_ne _ _ _ _ (Nat.ne_of_lt ha)]
      exact hra
    have hgb : Heap.read (Intersect h a b).1 b.elems = h.read b.elems := by
      rw [hI, Heap.read_write_ne _ _ _ _ (Nat.ne_of_lt hb)]
      exact hrb
    have hgr : Heap.read (Intersect h a b).1 (Intersect h a b).2.elems
        = intersectFold (h.read a.elems) (h.read b.elems) := by
      rw [hI, Heap.read_write_self _ _ _ (by simp), hra, hrb]
    refine ⟨by rw [hI]; exact (Nat.ne_of_lt ha).symm,
            by rw [hI]; exact (Nat.ne_of_lt hb).symm, hga, hgb, ?_, ?_, ?_⟩
    · intro k
      rw [hgr, intersectFold_get _ _ hwb k]
      cases hma : mapGet (h.read a.elems) k <;>
        cases hmb : mapGet (h.read b.elems) k <;> simp [hma, hmb]
    · intro hlen
      have hgt : (h.read b.elems).length < (h.read a.elems).length := by
        simpa [largerThan] using hL
      exact absurd hlen (Nat.lt_asymm hgt)
    · intro _ k v hget
      rw [hgr, intersectFold_get _ _ hwb k] at hget
      by_cases hc : ((mapGet (h.read b.elems) k).isSome
          && (mapGet (h.read a.elems) k).isSome) = true
      · rw [if_pos hc] at hget
        exact hget
      · rw [if_neg hc] at hget
        exact absurd hget (by simp)

/-- Claim C6 witness: intersecting `A = {1 ↦ 5}` (one entry) with
`B = {1 ↦ 9, 2 ↦ nil}` (two entries) yields a fresh set whose only key 1
carries marker 5 from the smaller operand, and the container of `A` is unchanged. -/
theorem Intersect_spec_witness :
    (Intersect hC6 ⟨0, 0⟩ ⟨1, 0⟩).2.elems ≠ 0
    ∧ Heap.read (Intersect hC6 ⟨0, 0⟩ ⟨1, 0⟩).1 0 = Heap.read hC6 0
    ∧ (mapGet (Heap.read (Intersect hC6 ⟨0, 0⟩ ⟨1, 0⟩).1
        (Intersect hC6 ⟨0, 0⟩ ⟨1, 0⟩).2.elems) 1).isSome = true
    ∧ mapGet (Heap.read hC6 0) 1 = some (some 5) := by
  have h := Intersect_spec hC6 ⟨0, 0⟩ ⟨1, 0⟩ (by decide) (by decide)
    (by decide) (by decide)
  refine ⟨h.1, h.2.2.1, ?_, ?_⟩
  · rw [h.2.2.2.2.1 1]
    decide
  · exact h.2.2.2.2.2.1 (by decide) 1 (some 5) (by decide)

end eset
